import Mathlib

/-!
Verification development for the image-gen-mcp generation ledger and
preview/select/cleanup workflow.

The TypeScript sources are embedded shallowly: JS strings become `List Char`,
JS numbers used for money become `ℚ` (exact-arithmetic idealization of IEEE
doubles), fallible operations become `Except`/`Option`, the sql.js-backed
ledger becomes explicit record lists, and the preview filesystem becomes an
explicit list of existing paths.  Wall-clock values (`new Date()`) are passed
in as parameters.
-/

namespace ImageGen

/-- JS strings are modelled as lists of characters. -/
abbrev Str := List Char

/-- Lexicographic string comparison, byte-wise on code points: this is how
SQLite compares TEXT values (memcmp on UTF-8 agrees with code-point order for
the ASCII timestamps stored in `created_at`).  `strLe a b` means `a <= b`. -/
def strLe : Str → Str → Bool
  | [], _ => true
  | _ :: _, [] => false
  | a :: as, b :: bs =>
    if a.toNat < b.toNat then true
    else if b.toNat < a.toNat then false
    else strLe as bs

/-! ## Generation Ledger (src/db/generations.ts, `GenerationStore`)

One row of the `generations` table, as inserted by `createGeneration` and
updated by `markSelected`.  Nullable columns are `Option`s. -/

structure GenRow where
  id : Str
  prompt : Str
  negative_prompt : Option Str
  context : Option Str
  model : Str
  provider : Str
  count : Int
  aspect_ratio : Str
  cost : ℚ
  created_at : Str
  selected_index : Option Int
  selected_at : Option Str
  storage_key : Option Str
  public_url : Option Str
  deriving DecidableEq, Repr

/-- One row of the `images` table (`GenerationImage`). -/
structure ImgRow where
  generation_id : Str
  index_num : Int
  preview_url : Str
  width : Option Int
  height : Option Int
  seed : Option Int
  deriving DecidableEq, Repr

/-- The persisted ledger state: the `generations` and `images` tables. -/
structure DbState where
  gens : List GenRow
  images : List ImgRow
  deriving DecidableEq, Repr

/-- `CostSummary` as returned by `GenerationStore.getCosts`.  The
`by_provider`/`by_model` records are modelled as association lists, one
entry per distinct key in first-occurrence order (SQL leaves the GROUP BY
output order unspecified; no claim depends on it). -/
structure CostSummary where
  total : ℚ
  by_provider : List (Str × ℚ)
  by_model : List (Str × ℚ)
  generation_count : Nat
  deriving DecidableEq, Repr

/-- `SELECT key, SUM(cost) ... GROUP BY key`: one entry per distinct key, in
first-occurrence order, each carrying the sum of `cost` over its group. -/
def groupSums (key : GenRow → Str) (rows : List GenRow) : List (Str × ℚ) :=
  ((rows.map key).dedup).map
    (fun k => (k, ((rows.filter (fun r => key r = k)).map (fun r => r.cost)).sum))

/-- The rows matching `getCosts`'s optional `since` bound:
`WHERE created_at >= ?` when `since` is given, all rows otherwise. -/
def rowsSince (rows : List GenRow) (since : Option Str) : List GenRow :=
  match since with
  | none => rows
  | some s => rows.filter (fun r => strLe s r.created_at)

/-- `GenerationStore.getCosts`: `COALESCE(SUM(cost), 0)` and `COUNT(*)` over
the matching rows, plus `GROUP BY provider` and `GROUP BY model` sums. -/
def getCosts (rows : List GenRow) (since : Option Str) : CostSummary :=
  let fr := rowsSince rows since
  { total := (fr.map (fun r => r.cost)).sum
    by_provider := groupSums (fun r => r.provider) fr
    by_model := groupSums (fun r => r.model) fr
    generation_count := fr.length }

/-- `GenerationStore.markSelected`: `UPDATE generations SET selected_index,
selected_at, storage_key, public_url WHERE id = ?`.  `now` is the wall-clock
ISO timestamp.  The `images` table is not touched.  The UPDATE matches zero
rows without error (sql.js `run` succeeds on an empty match), so the
function is total. -/
def markSelected (st : DbState) (id : Str) (index : Int)
    (storageKey publicUrl now : Str) : DbState :=
  { st with gens := st.gens.map (fun r =>
      if r.id = id then
        { r with selected_index := some index, selected_at := some now,
                 storage_key := some storageKey, public_url := some publicUrl }
      else r) }

/-- Ascending insertion into an `index_num`-sorted list (helper for the
`ORDER BY index_num` clause of `getGeneration`). -/
def insertByIndex (x : ImgRow) : List ImgRow → List ImgRow
  | [] => [x]
  | y :: ys =>
    if x.index_num ≤ y.index_num then x :: y :: ys else y :: insertByIndex x ys

/-- `ORDER BY index_num` ascending, as insertion sort. -/
def sortByIndex : List ImgRow → List ImgRow
  | [] => []
  | x :: xs => insertByIndex x (sortByIndex xs)

/-- `GenerationStore.getGeneration`: fetch the generation row by id plus its
child images ordered by `index_num`.  The source assigns `gen.images` only
when the image query returned at least one row, so a generation with zero
image rows comes back with its `images` field undefined (`none`). -/
def getGeneration (st : DbState) (id : Str) :
    Option (GenRow × Option (List ImgRow)) :=
  match st.gens.find? (fun r => r.id = id) with
  | none => none
  | some g =>
    let imgs := sortByIndex (st.images.filter (fun i => i.generation_id = id))
    some (g, if imgs.isEmpty then none else some imgs)

/-! ## Selection Workflow, lookup/validation phase (src/tools/select.ts,
`selectImage`) -/

/-- Ways the lookup/validation/element-access phase of `selectImage` can
fail.  `notFound` is the thrown `Generation not found` error, `invalidIndex`
the thrown `Invalid image index` error, and `undefinedAccess` the TypeError
raised by reading `selectedImage.preview_url` when
`generation.images[args.index]` is `undefined`. -/
inductive SelectErr where
  | notFound
  | invalidIndex
  | undefinedAccess
  deriving DecidableEq, Repr

/-- The lookup/validation/element-access phase of `selectImage`: takes the
result of `getGeneration` and the requested index.  The source checks
`!generation.images || args.index >= generation.images.length` (no lower
bound), then reads `generation.images[args.index]`; a JS array read at a
negative index yields `undefined`, and the subsequent `.preview_url` access
throws. -/
def selectValidate (gen : Option (GenRow × Option (List ImgRow)))
    (index : Int) : Except SelectErr ImgRow :=
  match gen with
  | none => Except.error SelectErr.notFound
  | some (_, none) => Except.error SelectErr.invalidIndex
  | some (_, some imgs) =>
    if (imgs.length : Int) ≤ index then Except.error SelectErr.invalidIndex
    else if index < 0 then Except.error SelectErr.undefinedAccess
    else
      match imgs.get? index.toNat with
      | some im => Except.ok im
      | none => Except.error SelectErr.undefinedAccess

/-- `isLocalPath` from src/tools/select.ts: not an `http://`, `https://` or
`data:` reference. -/
def isLocalPath (p : Str) : Bool :=
  !(List.isPrefixOf (r"http://").toList p)
  && !(List.isPrefixOf (r"https://").toList p)
  && !(List.isPrefixOf (r"data:").toList p)

/-- Result of the preview-cleanup loop of `selectImage`.  `fs` is the set of
preview files still existing (modelled as the list of their paths),
`deleted` the paths pushed to `deletedPreviews`, `retained` the paths pushed
to `retainedPreviews`.  The `attempts` field is instrumentation: it counts
entries into the delete branch (the `existsSync`/`unlinkSync` attempt),
matching the spec's notion of a "delete attempt". -/
structure CleanupResult where
  fs : List Str
  deleted : List Str
  retained : List Str
  attempts : Nat
  deriving DecidableEq, Repr

/-- The preview-cleanup loop of `selectImage`: for every image of the
generation, skip non-local references; delete when `cleanupOthers` is set or
the image's `index_num` equals the requested index (tolerating files that no
longer exist); otherwise record the path as retained.  The final
`rmdirSync(previewDir)` attempt is side-effect-free in this model and not
represented. -/
def cleanupPass (selIndex : Int) (cleanupOthers : Bool) :
    List ImgRow → List Str → CleanupResult
  | [], fs => { fs := fs, deleted := [], retained := [], attempts := 0 }
  | img :: rest, fs =>
    if isLocalPath img.preview_url then
      if cleanupOthers || img.index_num = selIndex then
        if img.preview_url ∈ fs then
          let res := cleanupPass selIndex cleanupOthers rest
            (fs.erase img.preview_url)
          { fs := res.fs, deleted := img.preview_url :: res.deleted,
            retained := res.retained, attempts := res.attempts + 1 }
        else
          let res := cleanupPass selIndex cleanupOthers rest fs
          { res with attempts := res.attempts + 1 }
      else
        let res := cleanupPass selIndex cleanupOthers rest fs
        { res with retained := img.preview_url :: res.retained }
    else cleanupPass selIndex cleanupOthers rest fs

/-- A concrete generation row used in witnesses and counterexamples. -/
def sampleGenRow : GenRow :=
  { id := ['g'], prompt := ['p'], negative_prompt := none, context := none,
    model := ['m'], provider := ['f'], count := 1, aspect_ratio := ['1'],
    cost := 1, created_at := ['t'], selected_index := none,
    selected_at := none, storage_key := none, public_url := none }

/-- A concrete image row used in witnesses and counterexamples. -/
def sampleImgRow : ImgRow :=
  { generation_id := ['g'], index_num := 0, preview_url := ['x'],
    width := none, height := none, seed := none }

/-! ## Budget warning (generate tool, `generateImages`)

JS number arithmetic on costs is idealized as exact rational arithmetic. -/

/-- Decimal digits of a natural number, most significant first. -/
def natDigitsStr (n : Nat) : Str := Nat.toDigits 10 n

/-- `String.prototype.padStart(2, "0")`. -/
def padStart2 (s : Str) : Str :=
  if s.length < 2 then List.replicate (2 - s.length) '0' ++ s else s

/-- JS `Number.prototype.toFixed(1)` over exact rationals: sign, then the
integer n with n/10 closest to |x| (ties to the larger n, per ECMA-262),
printed with exactly one fractional digit. -/
def toFixed1 (q : ℚ) : Str :=
  if q < 0 then
    '-' :: (let n := (⌊-q * 10 + 1/2⌋).toNat
      natDigitsStr (n / 10) ++ '.' :: natDigitsStr (n % 10))
  else
    let n := (⌊q * 10 + 1/2⌋).toNat
    natDigitsStr (n / 10) ++ '.' :: natDigitsStr (n % 10)

/-- JS `Number.prototype.toFixed(2)` over exact rationals. -/
def toFixed2 (q : ℚ) : Str :=
  if q < 0 then
    '-' :: (let n := (⌊-q * 100 + 1/2⌋).toNat
      natDigitsStr (n / 100) ++ '.' :: padStart2 (natDigitsStr (n % 100)))
  else
    let n := (⌊q * 100 + 1/2⌋).toNat
    natDigitsStr (n / 100) ++ '.' :: padStart2 (natDigitsStr (n % 100))

/-- Smallest k (up to the fuel bound) with `den ∣ 10^k`. -/
def findScale (den : Nat) : Nat → Nat → Option Nat
  | _, 0 => none
  | k, fuel + 1 => if den ∣ 10 ^ k then some k else findScale den (k + 1) fuel

/-- JS number-to-string (the `${limit}` template splice), idealized on
nonnegative exact rationals with a finite decimal expansion: minimal decimal
digits, integers without a decimal point.  (Rationals without a finite
decimal expansion cannot arise from decimal config literals; they render as
`num/den` here.) -/
def ratNNToStr (q : ℚ) : Str :=
  match findScale q.den 0 21 with
  | none => natDigitsStr q.num.toNat ++ '/' :: natDigitsStr q.den
  | some 0 => natDigitsStr q.num.toNat
  | some k =>
    let scaled := q.num.toNat * 10 ^ k / q.den
    natDigitsStr (scaled / 10 ^ k)
      ++ '.' :: (List.replicate (k - (natDigitsStr (scaled % 10 ^ k)).length) '0'
        ++ natDigitsStr (scaled % 10 ^ k))

/-- JS number-to-string with sign. -/
def ratToStr (q : ℚ) : Str :=
  if q < 0 then '-' :: ratNNToStr (-q) else ratNNToStr q

/-- The string after the percentage in the budget-warning template. -/
def pctSuffix : Str := (r"% of monthly limit used ($").toList

/-- The budget-warning message template of `generateImages`. -/
def budgetMsg (total limit : ℚ) : Str :=
  (r"Budget alert: ").toList ++ toFixed1 (total / limit * 100)
    ++ pctSuffix ++ toFixed2 total ++ '/' :: '$' :: ratToStr limit ++ [')']

/-- The budget check of `generateImages`: a warning exactly when
`costs.total >= monthly_limit * alert_threshold`. -/
def budgetWarning (total limit threshold : ℚ) : Option Str :=
  if limit * threshold ≤ total then some (budgetMsg total limit) else none

/-- The budget step of `generateImages` in context: the new generation row
has already been inserted by `createGeneration`, so the month-to-date total
is taken over the prior rows plus the new one, with `since` the start of the
current month. -/
def generateBudgetWarning (prior : List GenRow) (newRow : GenRow)
    (monthStart : Str) (limit threshold : ℚ) : Option Str :=
  budgetWarning (getCosts (prior ++ [newRow]) (some monthStart)).total
    limit threshold

/-! ## Generation Workflow, image materialization (generate tool,
`generateImages`) -/

/-- Characters matched by the JS regex class `\w`. -/
def isWordChar (c : Char) : Bool :=
  decide (97 ≤ c.toNat ∧ c.toNat ≤ 122)
  || decide (65 ≤ c.toNat ∧ c.toNat ≤ 90)
  || decide (48 ≤ c.toNat ∧ c.toNat ≤ 57)
  || decide (c.toNat = 95)

/-- JS line terminators, which `.` does not match in a regex without the
`s` flag. -/
def isLineTerm (c : Char) : Bool :=
  decide (c.toNat = 10) || decide (c.toNat = 13)
  || decide (c.toNat = 0x2028) || decide (c.toNat = 0x2029)

/-- `dataUrlToBuffer` of the generate tool: `null` unless the url starts
with `data:` and matches `^data:(image\/\w+);base64,(.+)$`.  Returns the
mime type and the raw base64 payload (base64 decoding itself is not needed
by any claim and is not modelled). -/
def dataUrlToBuffer (url : Str) : Option (Str × Str) :=
  if List.isPrefixOf (r"data:").toList url then
    let rest := url.drop 5
    if List.isPrefixOf (r"image/").toList rest then
      let r2 := rest.drop 6
      let w := r2.takeWhile isWordChar
      let r3 := r2.dropWhile isWordChar
      if w.isEmpty then none
      else if List.isPrefixOf (r";base64,").toList r3 then
        let payload := r3.drop 8
        if payload.isEmpty || payload.any isLineTerm then none
        else some ((r"image/").toList ++ w, payload)
      else none
    else none
  else none

/-- One provider-returned image (`GeneratedImage` of providers/base.ts). -/
structure ProvImage where
  index : Int
  url : Str
  width : Int
  height : Int
  seed : Option Int
  deriving DecidableEq, Repr

/-- One locally saved preview (`savedImages` entries of the generate
tool). -/
structure SavedImage where
  index : Int
  localPath : Str
  width : Int
  height : Int
  seed : Option Int
  deriving DecidableEq, Repr

/-- JS number-to-string for the integral image index. -/
def intToStr (i : Int) : Str :=
  if i < 0 then '-' :: natDigitsStr i.natAbs else natDigitsStr i.toNat

/-- The local preview path `join(generationDir, "<index>.<ext>")`, with ext
`jpg` for `image/jpeg` payloads and `png` otherwise. -/
def savedImageOf (generationDir : Str) (img : ProvImage) (mime : Str) :
    SavedImage :=
  { index := img.index,
    localPath := generationDir ++ '/' :: intToStr img.index
      ++ '.' :: (if mime = (r"image/jpeg").toList
          then (r"jpg").toList else (r"png").toList),
    width := img.width, height := img.height, seed := img.seed }

/-- The preview-materialization loop of `generateImages`: an image whose
payload is not a data URL is logged and skipped (`continue`); a data-URL
image is written to `<generationDir>/<index>.<ext>` and tracked. -/
def processImages (generationDir : Str) (imgs : List ProvImage) :
    List SavedImage :=
  imgs.filterMap (fun img =>
    match dataUrlToBuffer img.url with
    | none => none
    | some (mime, _) => some (savedImageOf generationDir img mime))

/-- The child image rows passed to `createGeneration` (their
`generation_id` is filled in by the store, modelled as `[]` here). -/
def genImageRows (generationDir : Str) (imgs : List ProvImage) :
    List ImgRow :=
  (processImages generationDir imgs).map (fun s =>
    { generation_id := [], index_num := s.index, preview_url := s.localPath,
      width := some s.width, height := some s.height, seed := s.seed })

/-- One entry of the per-image list in the returned payload. -/
structure PayloadImage where
  index : Int
  preview_url : Str
  width : Int
  height : Int
  deriving DecidableEq, Repr

/-- The per-image list of the returned payload of `generateImages`. -/
def genPayloadImages (generationDir : Str) (imgs : List ProvImage) :
    List PayloadImage :=
  (processImages generationDir imgs).map (fun s =>
    { index := s.index, preview_url := s.localPath, width := s.width,
      height := s.height })

/-! ## Path Templater (src/storage/base.ts, `generateStoragePath`) -/

/-- Index of the first occurrence of `pat` in `s` (JS
`String.prototype.indexOf` as used by a string-pattern `replace`). -/
def findSub : Str → Str → Option Nat
  | [], pat => if List.isPrefixOf pat [] then some 0 else none
  | c :: rest, pat =>
    if List.isPrefixOf pat (c :: rest) then some 0
    else (findSub rest pat).map (fun n => n + 1)

/-- GetSubstitution of ECMA-262 for a string search pattern: in the
replacement string, `$$` emits `$`, `$&` the matched text, a dollar
followed by a backquote the text before the match, a dollar followed by an
apostrophe the text after it; any other `$` is literal (there are no
capture groups for a string pattern). -/
def dollarGet (matched before after : Str) : Str → Str
  | [] => []
  | c :: rest =>
    if c.toNat = 36 then
      match rest with
      | [] => [c]
      | d :: rest2 =>
        if d.toNat = 36 then Char.ofNat 36 :: dollarGet matched before after rest2
        else if d.toNat = 38 then matched ++ dollarGet matched before after rest2
        else if d.toNat = 96 then before ++ dollarGet matched before after rest2
        else if d.toNat = 39 then after ++ dollarGet matched before after rest2
        else c :: d :: dollarGet matched before after rest2
    else c :: dollarGet matched before after rest

/-- JS `String.prototype.replace` with a string pattern: replaces only the
first occurrence, applying `$`-substitution to the replacement. -/
def jsReplaceFirst (s pat repl : Str) : Str :=
  match findSub s pat with
  | none => s
  | some i =>
    s.take i ++ dollarGet pat (s.take i) (s.drop (i + pat.length)) repl
      ++ s.drop (i + pat.length)

def yearTok : Str := (r"{year}").toList

def monthTok : Str := (r"{month}").toList

def dayTok : Str := (r"{day}").toList

def fileTok : Str := (r"{filename}").toList

/-- `generateStoragePath`: chained `.replace` calls for `{year}`,
`{month}`, `{day}`, `{filename}`.  The wall-clock date is passed in: `y`
is the full year, `m` the 1-based month (`getMonth() + 1`), `d` the day of
month; month and day are zero-padded to two digits, the year is not. -/
def generateStoragePath (y m d : Nat) (template filename : Str) : Str :=
  jsReplaceFirst
    (jsReplaceFirst
      (jsReplaceFirst
        (jsReplaceFirst template yearTok (natDigitsStr y))
        monthTok (padStart2 (natDigitsStr m)))
      dayTok (padStart2 (natDigitsStr d)))
    fileTok filename

/-! ## Retention Sweeper (src/tools/cleanup.ts, `cleanupPreviews`) -/

/-- One directory entry under the preview area, with the files inside it
(only name, kind, mtime and contents matter to the sweeper). -/
structure PreviewEntry where
  name : Str
  isDir : Bool
  mtimeMs : Nat
  files : List Str
  deriving DecidableEq, Repr

/-- The preview area: whether the directory exists, and its entries. -/
structure PreviewArea where
  dirExists : Bool
  entries : List PreviewEntry
  deriving DecidableEq, Repr

/-- The report returned by `cleanupPreviews` (the fields the claims are
about; informational timestamp fields are omitted). -/
inductive CleanupReport where
  | noDir
  | nothingOld
  | dryRun (wouldDelete : Nat) (previews : List (Str × Nat))
      (moreCount : Option Nat)
  | deleted (count : Nat) (errors : List Str)
  deriving DecidableEq, Repr

/-- Is this entry a deletion candidate: name starts with `gen-`, it is a
directory, and its mtime is strictly older than the cutoff. -/
def isCandidate (cutoffTime : Nat) (e : PreviewEntry) : Bool :=
  List.isPrefixOf (r"gen-").toList e.name && e.isDir
    && decide (e.mtimeMs < cutoffTime)

/-- The `previewsToDelete` list: full path plus age in whole days. -/
def candidatesOf (previewDir : Str) (entries : List PreviewEntry)
    (cutoffTime nowMs : Nat) : List (Str × Nat) :=
  (entries.filter (isCandidate cutoffTime)).map
    (fun e => (previewDir ++ '/' :: e.name, (nowMs - e.mtimeMs) / 86400000))

/-- `cleanupPreviews`: `dryRunArg` is `args.dry_run` (`?? false` applied
inside).  `cutoffTime` stands for the value the source derives from
`args.older_than_days ?? config.defaults.auto_cleanup_days` by calendar
arithmetic on the current date; `nowMs` is `Date.now()`.  Returns the
preview area after the call and the report.  In the deletion branch the
model's filesystem operations always succeed, so `errors` is empty and
every candidate directory is removed. -/
def cleanupPreviews (area : PreviewArea) (previewDir : Str)
    (dryRunArg : Option Bool) (nowMs cutoffTime : Nat) :
    PreviewArea × CleanupReport :=
  let dry := dryRunArg.getD false
  if !area.dirExists then (area, CleanupReport.noDir)
  else
    let cands := candidatesOf previewDir area.entries cutoffTime nowMs
    if cands.isEmpty then (area, CleanupReport.nothingOld)
    else if dry then
      (area, CleanupReport.dryRun cands.length (cands.take 20)
        (if cands.length > 20 then some (cands.length - 20) else none))
    else
      ({ area with
          entries := area.entries.filter (fun e => ! isCandidate cutoffTime e) },
        CleanupReport.deleted
          (area.entries.filter (isCandidate cutoffTime)).length [])

/-- The candidate list of a report (empty unless it is a dry-run report). -/
def reportPreviews : CleanupReport → List (Str × Nat)
  | CleanupReport.dryRun _ p _ => p
  | _ => []

/-- The remainder count of a report. -/
def reportMore : CleanupReport → Option Nat
  | CleanupReport.dryRun _ _ m => m
  | _ => none

/-! ## Header Sanitizer (src/storage/base.ts, `sanitizeForHeader`) -/

/-- Step 1: `replace(/[\t\n\r]/g, " ")`. -/
def normWsChar (c : Char) : Char :=
  if c.toNat = 9 ∨ c.toNat = 10 ∨ c.toNat = 13 then ' ' else c

/-- Step 2: the fixed table of smart-punctuation replacements.  The source
applies them as eight successive global replaces; since every pattern
character is ≥ U+00A0 and every replacement character is ASCII, no replace
can create or destroy a later pattern, so the chain equals this single
per-character substitution. -/
def unicodeSubChar (c : Char) : Str :=
  if c.toNat = 0x2018 ∨ c.toNat = 0x2019 then [Char.ofNat 39]
  else if c.toNat = 0x201C ∨ c.toNat = 0x201D then [Char.ofNat 34]
  else if c.toNat = 0x2014 then ['-', '-']
  else if c.toNat = 0x2013 then ['-']
  else if c.toNat = 0x2026 then ['.', '.', '.']
  else if c.toNat = 0xA0 then [' ']
  else if c.toNat = 0x2022 ∨ c.toNat = 0x2023 ∨ c.toNat = 0x25E6 then ['*']
  else if c.toNat = 0xB7 then ['-']
  else [c]

/-- Step 3: the printable-ASCII range kept by `replace(/[^\x20-\x7E]/g,
"")`. -/
def isPrintableAscii (c : Char) : Bool :=
  decide (32 ≤ c.toNat ∧ c.toNat ≤ 126)

/-- Step 4: `replace(/\s+/g, " ")`.  Its input has already passed the
printable-ASCII filter, and the only `\s` character in 0x20–0x7E is the
space itself, so the step reduces to collapsing runs of spaces. -/
def collapseSpaces : Str → Str
  | [] => []
  | [c] => [c]
  | a :: b :: rest =>
    if a = ' ' ∧ b = ' ' then collapseSpaces (b :: rest)
    else a :: collapseSpaces (b :: rest)

/-- Leading-space trim (the only whitespace left at this stage is the
space). -/
def ltrimSpaces (s : Str) : Str := s.dropWhile (fun c => c = ' ')

/-- Trailing-space trim. -/
def rtrimSpaces (s : Str) : Str :=
  (s.reverse.dropWhile (fun c => c = ' ')).reverse

/-- Step 5: `trim()`. -/
def trimSpaces (s : Str) : Str := rtrimSpaces (ltrimSpaces s)

/-- `sanitizeForHeader`: whitespace normalization, smart-punctuation
substitution, non-ASCII strip, whitespace collapse, trim, then truncation
to `maxLength` (source default 500). -/
def sanitizeForHeader (text : Str) (maxLength : Nat := 500) : Str :=
  (trimSpaces (collapseSpaces
    (((text.map normWsChar).map unicodeSubChar).join.filter
      isPrintableAscii))).take maxLength

/-- First instant of the current calendar month, as used by the budget
check, for the concrete date 2025-01-09. -/
def monthStart2025 : Str := (r"2025-01-01T00:00:00.000Z").toList

/-- A concrete generation row with cost 22, created after
`monthStart2025`. -/
def sampleRow22 : GenRow :=
  { sampleGenRow with
    cost := 22,
    created_at := (r"2025-01-09T12:00:00.000Z").toList }

/-- A concrete generation row with cost 5, created after
`monthStart2025`. -/
def sampleRow5 : GenRow :=
  { sampleGenRow with
    cost := 5,
    created_at := (r"2025-01-09T12:00:00.000Z").toList }

/-! ### Helper lemmas for cost aggregation -/

/-- Splitting a cost sum along a boolean predicate. -/
lemma sum_cost_filter_split (p : GenRow → Bool) (rows : List GenRow) :
    (rows.map (fun r => r.cost)).sum
      = ((rows.filter p).map (fun r => r.cost)).sum
        + ((rows.filter (fun r => ! p r)).map (fun r => r.cost)).sum := by
  induction rows with
  | nil => simp
  | cons r rs ih =>
    by_cases h : p r = true <;>
      simp only [List.filter_cons, h, Bool.not_true, Bool.not_false, if_pos,
        if_neg, List.map_cons, List.sum_cons, ih, Bool.false_eq_true,
        not_false_eq_true, ite_true, ite_false] <;> ring

/-- Rows of a different group are untouched by removing the `k`-group. -/
lemma filter_group_of_ne (key : GenRow → Str) (k k' : Str) (hkk : k' ≠ k)
    (rows : List GenRow) :
    (rows.filter (fun r => ! decide (key r = k))).filter
        (fun r => key r = k')
      = rows.filter (fun r => key r = k') := by
  induction rows with
  | nil => rfl
  | cons r rs ih =>
    by_cases h : key r = k'
    · have h2 : ¬ key r = k := fun hh => hkk (h.symm.trans hh)
      simp [List.filter_cons, h, h2, hkk, ih]
    · by_cases h2 : key r = k <;>
        simp [List.filter_cons, h, h2, ih, Ne.symm hkk]

/-- Summing group sums over a duplicate-free key list that covers every row
recovers the sum over all rows. -/
lemma sum_group_cover (key : GenRow → Str) :
    ∀ (ks : List Str) (rows : List GenRow), ks.Nodup →
      (∀ r ∈ rows, key r ∈ ks) →
      ((ks.map (fun k =>
        ((rows.filter (fun r => key r = k)).map (fun r => r.cost)).sum)).sum
        = (rows.map (fun r => r.cost)).sum) := by
  intro ks
  induction ks with
  | nil =>
    intro rows _ hcov
    cases rows with
    | nil => simp
    | cons r rs => exact absurd (hcov r (by simp)) (by simp)
  | cons k ks ih =>
    intro rows hnd hcov
    have hnd' : ks.Nodup := (List.nodup_cons.mp hnd).2
    have hk : k ∉ ks := (List.nodup_cons.mp hnd).1
    -- the remaining groups are unaffected by dropping the `k`-group rows
    have hrest :
        (ks.map (fun k' =>
          ((rows.filter (fun r => key r = k')).map (fun r => r.cost)).sum)).sum
          = (ks.map (fun k' =>
            (((rows.filter (fun r => ! decide (key r = k))).filter
                (fun r => key r = k')).map (fun r => r.cost)).sum)).sum := by
      apply congrArg
      apply List.map_congr_left
      intro k' hk'
      have hkk : k' ≠ k := fun h => hk (h ▸ hk')
      rw [filter_group_of_ne key k k' hkk rows]
    have hcov' : ∀ r ∈ rows.filter (fun r => ! decide (key r = k)),
        key r ∈ ks := by
      intro r hr
      have hmem := List.mem_of_mem_filter hr
      have hne : ¬ key r = k := by
        have := List.of_mem_filter hr
        simpa using this
      rcases List.mem_cons.mp (hcov r hmem) with h | h
      · exact absurd h hne
      · exact h
    calc ((k :: ks).map (fun k' =>
            ((rows.filter (fun r => key r = k')).map (fun r => r.cost)).sum)).sum
        = ((rows.filter (fun r => key r = k)).map (fun r => r.cost)).sum
          + (ks.map (fun k' =>
            ((rows.filter (fun r => key r = k')).map (fun r => r.cost)).sum)).sum := by
          simp
      _ = ((rows.filter (fun r => key r = k)).map (fun r => r.cost)).sum
          + ((rows.filter (fun r => ! decide (key r = k))).map
              (fun r => r.cost)).sum := by
          rw [hrest,
            ih (rows.filter (fun r => ! decide (key r = k))) hnd' hcov']
      _ = (rows.map (fun r => r.cost)).sum :=
          (sum_cost_filter_split (fun r => decide (key r = k)) rows).symm

/-- The values of a `groupSums` grouping always sum to the plain total. -/
lemma groupSums_sum (key : GenRow → Str) (rows : List GenRow) :
    ((groupSums key rows).map (fun p => p.2)).sum
      = (rows.map (fun r => r.cost)).sum := by
  unfold groupSums
  rw [List.map_map]
  exact sum_group_cover key ((rows.map key).dedup) rows
    (List.nodup_dedup _)
    (fun r hr => List.mem_dedup.mpr (List.mem_map.mpr ⟨r, hr, rfl⟩))

/-! ### Claims C7, C9, C10 -/

/-- C7: `getCosts` with no `since` bound over N generation rows with costs
c1..cN returns `total` equal to the sum of the ci, `generation_count` equal
to N, and `by_provider`/`by_model` groupings whose values each sum exactly
to the total. -/
theorem getCosts_no_since_aggregation (rows : List GenRow) :
    (getCosts rows none).total = (rows.map (fun r => r.cost)).sum
    ∧ (getCosts rows none).generation_count = rows.length
    ∧ ((getCosts rows none).by_provider.map (fun p => p.2)).sum
        = (getCosts rows none).total
    ∧ ((getCosts rows none).by_model.map (fun p => p.2)).sum
        = (getCosts rows none).total := by
  refine ⟨rfl, rfl, ?_, ?_⟩
  · exact groupSums_sum (fun r => r.provider) rows
  · exact groupSums_sum (fun r => r.model) rows

/-- C9: `markSelected` on an id that is not present in the ledger completes
(it is a total function — the UPDATE simply matches no row) and leaves every
generation row and every image row unchanged. -/
theorem markSelected_missing_id_noop (st : DbState) (id : Str) (index : Int)
    (storageKey publicUrl now : Str)
    (h : id ∉ st.gens.map (fun r => r.id)) :
    markSelected st id index storageKey publicUrl now = st := by
  have hne : ∀ r ∈ st.gens, ¬ r.id = id :=
    fun r hr heq => h (List.mem_map.mpr ⟨r, hr, heq⟩)
  have hmap : ∀ l : List GenRow, (∀ r ∈ l, ¬ r.id = id) →
      l.map (fun r =>
        if r.id = id then
          { r with selected_index := some index, selected_at := some now,
                   storage_key := some storageKey, public_url := some publicUrl }
        else r) = l := by
    intro l
    induction l with
    | nil => intro _; rfl
    | cons a t ih =>
      intro hl
      simp only [List.map_cons]
      rw [if_neg (hl a (by simp)), ih (fun r hr => hl r (by simp [hr]))]
  show { st with gens := _ } = st
  rw [hmap st.gens hne]

/-- Witness for C9 at a concrete ledger state: updating a missing id is a
no-op. -/
theorem markSelected_missing_id_noop_witness :
    markSelected
      { gens := [{ id := ['a'], prompt := ['p'], negative_prompt := none,
                   context := none, model := ['m'], provider := ['f'],
                   count := 1, aspect_ratio := ['1'], cost := 1,
                   created_at := ['t'], selected_index := none,
                   selected_at := none, storage_key := none,
                   public_url := none }],
        images := [{ generation_id := ['a'], index_num := 0,
                     preview_url := ['x'], width := none, height := none,
                     seed := none }] }
      ['b'] 0 ['k'] ['u'] ['n']
      = { gens := [{ id := ['a'], prompt := ['p'], negative_prompt := none,
                     context := none, model := ['m'], provider := ['f'],
                     count := 1, aspect_ratio := ['1'], cost := 1,
                     created_at := ['t'], selected_index := none,
                     selected_at := none, storage_key := none,
                     public_url := none }],
          images := [{ generation_id := ['a'], index_num := 0,
                       preview_url := ['x'], width := none, height := none,
                       seed := none }] } :=
  markSelected_missing_id_noop _ _ _ _ _ _ (by decide)

/-- C10: `getCosts` with a `since` bound matching no rows returns a zero
total, a zero count and empty groupings, rather than failing or yielding a
null total. -/
theorem getCosts_empty_window (rows : List GenRow) (since : Str)
    (h : rows.filter (fun r => strLe since r.created_at) = []) :
    getCosts rows (some since)
      = { total := 0, by_provider := [], by_model := [],
          generation_count := 0 } := by
  have hfr : rowsSince rows (some since) = [] := by simpa [rowsSince] using h
  simp [getCosts, hfr, groupSums]

/-- Witness for C10 at a concrete ledger: a bound later than every
`created_at` matches nothing. -/
theorem getCosts_empty_window_witness :
    getCosts
      [{ id := ['a'], prompt := ['p'], negative_prompt := none,
         context := none, model := ['m'], provider := ['f'],
         count := 1, aspect_ratio := ['1'], cost := 3,
         created_at := ['2', '0', '2', '4'], selected_index := none,
         selected_at := none, storage_key := none, public_url := none }]
      (some ['2', '0', '2', '5'])
      = { total := 0, by_provider := [], by_model := [],
          generation_count := 0 } :=
  getCosts_empty_window _ _ (by decide)

/-! ### Claim C1 -/

/-- C1 counterexample: on a generation with one image, index `-1` is outside
`0 ≤ index < 1`, yet `selectImage` does not fail with InvalidIndex — it
fails with the undefined-element access, because the source only checks
`!generation.images || args.index >= generation.images.length`. -/
theorem selectValidate_neg_index_not_invalidIndex :
    selectValidate (some (sampleGenRow, some [sampleImgRow])) (-1)
        = Except.error SelectErr.undefinedAccess
    ∧ ¬ (selectValidate (some (sampleGenRow, some [sampleImgRow])) (-1)
        = Except.error SelectErr.invalidIndex) := by
  refine ⟨rfl, ?_⟩
  intro h
  rw [show selectValidate (some (sampleGenRow, some [sampleImgRow])) (-1)
      = Except.error SelectErr.undefinedAccess from rfl] at h
  exact SelectErr.noConfusion (Except.error.inj h)

/-- C1 amended: `selectImage` fails with InvalidIndex exactly when the image
list is absent (which is how a generation with zero image rows is loaded) or
the index is ≥ the list length; a negative index on a generation with a
present image list instead fails with an undefined-element access error, and
an in-range index passes validation. -/
theorem selectValidate_invalidIndex_characterization :
    (∀ index : Int,
      selectValidate none index = Except.error SelectErr.notFound)
    ∧ (∀ (g : GenRow) (index : Int),
      selectValidate (some (g, none)) index
        = Except.error SelectErr.invalidIndex)
    ∧ (∀ (g : GenRow) (imgs : List ImgRow) (index : Int),
      (imgs.length : Int) ≤ index →
      selectValidate (some (g, some imgs)) index
        = Except.error SelectErr.invalidIndex)
    ∧ (∀ (g : GenRow) (imgs : List ImgRow) (index : Int),
      index < 0 →
      selectValidate (some (g, some imgs)) index
        = Except.error SelectErr.undefinedAccess)
    ∧ (∀ (g : GenRow) (imgs : List ImgRow) (index : Int),
      0 ≤ index → index < (imgs.length : Int) →
      ∃ im, selectValidate (some (g, some imgs)) index = Except.ok im)
    ∧ (∀ (st : DbState) (id : Str) (g : GenRow)
        (oimgs : Option (List ImgRow)) (index : Int),
      st.images.filter (fun i => i.generation_id = id) = [] →
      getGeneration st id = some (g, oimgs) →
      selectValidate (some (g, oimgs)) index
        = Except.error SelectErr.invalidIndex) := by
  refine ⟨fun _ => rfl, fun _ _ => rfl, ?_, ?_, ?_, ?_⟩
  · intro g imgs index h
    simp only [selectValidate, if_pos h]
  · intro g imgs index h
    have hlen : ¬ ((imgs.length : Int) ≤ index) := by omega
    simp only [selectValidate, if_neg hlen, if_pos h]
  · intro g imgs index h0 hlt
    have hlen : ¬ ((imgs.length : Int) ≤ index) := by omega
    have hneg : ¬ (index < 0) := by omega
    have hnat : index.toNat < imgs.length := by omega
    refine ⟨imgs.get ⟨index.toNat, hnat⟩, ?_⟩
    simp only [selectValidate, if_neg hlen, if_neg hneg,
      List.get?_eq_get hnat]
  · intro st id g oimgs index hfilter hget
    have honone : oimgs = none := by
      unfold getGeneration at hget
      cases hfind : st.gens.find? (fun r => r.id = id) with
      | none => rw [hfind] at hget; exact Option.noConfusion hget
      | some g' =>
        rw [hfind] at hget
        simp only [hfilter] at hget
        have := (Option.some.inj hget)
        have h2 := congrArg Prod.snd this
        simpa [sortByIndex] using h2.symm
    rw [honone]
    rfl

/-- Witness for C1 at concrete inputs: index 1 on a one-image generation is
rejected with InvalidIndex. -/
theorem selectValidate_invalidIndex_characterization_witness :
    selectValidate (some (sampleGenRow, some [sampleImgRow])) 1
      = Except.error SelectErr.invalidIndex :=
  selectValidate_invalidIndex_characterization.2.2.1 sampleGenRow
    [sampleImgRow] 1 (by decide)

/-! ### Claim C2 -/

/-- Running the cleanup loop over an appended list composes the two runs. -/
lemma cleanupPass_append (selIndex : Int) (co : Bool) :
    ∀ (l1 l2 : List ImgRow) (fs : List Str),
      cleanupPass selIndex co (l1 ++ l2) fs
        = { fs := (cleanupPass selIndex co l2
              (cleanupPass selIndex co l1 fs).fs).fs,
            deleted := (cleanupPass selIndex co l1 fs).deleted
              ++ (cleanupPass selIndex co l2
                    (cleanupPass selIndex co l1 fs).fs).deleted,
            retained := (cleanupPass selIndex co l1 fs).retained
              ++ (cleanupPass selIndex co l2
                    (cleanupPass selIndex co l1 fs).fs).retained,
            attempts := (cleanupPass selIndex co l1 fs).attempts
              + (cleanupPass selIndex co l2
                    (cleanupPass selIndex co l1 fs).fs).attempts } := by
  intro l1
  induction l1 with
  | nil => intro l2 fs; simp [cleanupPass]
  | cons img rest ih =>
    intro l2 fs
    by_cases hl : isLocalPath img.preview_url
    · by_cases hb : co = true ∨ img.index_num = selIndex
      · have hcond : (co || decide (img.index_num = selIndex)) = true := by
          rcases hb with h | h <;> simp [h]
        by_cases hmem : img.preview_url ∈ fs
        · simp [cleanupPass, hl, hcond, hmem, ih]
          omega
        · simp [cleanupPass, hl, hcond, hmem, ih]
          omega
      · have hcond : (co || decide (img.index_num = selIndex)) = false := by
          push_neg at hb
          simp [hb.1, hb.2]
        simp [cleanupPass, hl, hcond, ih]
    · simp [cleanupPass, hl, ih]

/-- With `cleanupOthers` off, a stretch of images whose `index_num` never
equals the requested index is fully retained: nothing is deleted, the
filesystem is untouched. -/
lemma cleanupPass_no_hit (selIndex : Int) :
    ∀ (l : List ImgRow) (fs : List Str),
      (∀ img ∈ l, isLocalPath img.preview_url = true) →
      (∀ img ∈ l, ¬ img.index_num = selIndex) →
      cleanupPass selIndex false l fs
        = { fs := fs, deleted := [],
            retained := l.map (fun i => i.preview_url), attempts := 0 } := by
  intro l
  induction l with
  | nil => intro fs _ _; rfl
  | cons img rest ih =>
    intro fs hloc hne
    have hl : isLocalPath img.preview_url = true := hloc img (by simp)
    have hn : ¬ img.index_num = selIndex := hne img (by simp)
    simp [cleanupPass, hl, hn,
      ih fs (fun i hi => hloc i (by simp [hi])) (fun i hi => hne i (by simp [hi]))]

/-- With `cleanupOthers` on, every local image is a delete attempt and the
deleted list collects exactly the paths that existed; nothing is retained.
Needs the preview paths pairwise distinct (deleting one file must not affect
the existence check of another). -/
lemma cleanupPass_all (selIndex : Int) :
    ∀ (l : List ImgRow) (fs : List Str),
      (∀ img ∈ l, isLocalPath img.preview_url = true) →
      ((l.map (fun i => i.preview_url)).Nodup) →
      (cleanupPass selIndex true l fs).attempts = l.length
      ∧ (cleanupPass selIndex true l fs).deleted
          = (l.map (fun i => i.preview_url)).filter (fun u => u ∈ fs)
      ∧ (cleanupPass selIndex true l fs).retained = [] := by
  intro l
  induction l with
  | nil => intro fs _ _; exact ⟨rfl, rfl, rfl⟩
  | cons img rest ih =>
    intro fs hloc hnd
    have hl : isLocalPath img.preview_url = true := hloc img (by simp)
    have hnd' : (rest.map (fun i => i.preview_url)).Nodup :=
      (List.nodup_cons.mp hnd).2
    have hni : img.preview_url ∉ rest.map (fun i => i.preview_url) :=
      (List.nodup_cons.mp hnd).1
    have hloc' : ∀ i ∈ rest, isLocalPath i.preview_url = true :=
      fun i hi => hloc i (by simp [hi])
    by_cases hmem : img.preview_url ∈ fs
    · have key : (rest.map (fun i => i.preview_url)).filter
          (fun u => u ∈ fs.erase img.preview_url)
          = (rest.map (fun i => i.preview_url)).filter (fun u => u ∈ fs) := by
        apply List.filter_congr
        intro x hx
        have hxne : x ≠ img.preview_url := fun h => hni (h ▸ hx)
        simp [List.mem_erase_of_ne hxne]
      obtain ⟨ia, ib, ic⟩ := ih (fs.erase img.preview_url) hloc' hnd'
      simp [cleanupPass, hl, hmem, ia, ib, ic, key, List.filter_cons]
    · obtain ⟨ia, ib, ic⟩ := ih fs hloc' hnd'
      simp [cleanupPass, hl, hmem, ia, ib, ic, List.filter_cons]

/-- C2 counterexample: a generation with a single image whose `index_num` is
1 rather than 0 (reachable, e.g. when image 0 was skipped during
generation).  Selecting index 0 passes validation, yet with
`cleanup_others = false` the loop performs zero delete attempts (the claim
demands exactly one, the selected preview) and even retains the selected
image's path. -/
theorem cleanupPass_counterexample :
    (∃ im, selectValidate
        (some (sampleGenRow,
          some [{ generation_id := ['g'], index_num := 1,
                  preview_url := (r"/p/1.png").toList, width := none,
                  height := none, seed := none }])) 0 = Except.ok im)
    ∧ ¬ ((cleanupPass 0 false
          [{ generation_id := ['g'], index_num := 1,
             preview_url := (r"/p/1.png").toList, width := none,
             height := none, seed := none }]
          [(r"/p/1.png").toList]).attempts = 1)
    ∧ (cleanupPass 0 false
          [{ generation_id := ['g'], index_num := 1,
             preview_url := (r"/p/1.png").toList, width := none,
             height := none, seed := none }]
          [(r"/p/1.png").toList]).retained = [(r"/p/1.png").toList] := by
  refine ⟨⟨{ generation_id := ['g'], index_num := 1,
             preview_url := (r"/p/1.png").toList, width := none,
             height := none, seed := none }, rfl⟩, by decide, by decide⟩

/-- C2 amended: for a generation whose k images all have local preview
paths, pairwise distinct, and whose `index_num` values equal their list
positions 0..k−1 (the layout produced by a generation with no skipped
images), a successful selection of index `sel` behaves as claimed: with
`cleanup_others = true` exactly k delete attempts occur, the deleted count
is the number of the k preview files that existed, and nothing is retained;
with `cleanup_others = false` exactly one delete attempt occurs — the
selected image's preview, deleted iff it existed — and the other k−1 paths
are all retained.  (In general the source deletes the images whose
`index_num` equals the requested index, which need not be the selected
position.) -/
theorem cleanupPass_selection_invariant (imgs : List ImgRow)
    (fs : List Str) (sel : Nat)
    (hpos : ∀ (i : Nat) (h : i < imgs.length),
      (imgs.get ⟨i, h⟩).index_num = (i : Int))
    (hloc : ∀ img ∈ imgs, isLocalPath img.preview_url = true)
    (hnd : (imgs.map (fun i => i.preview_url)).Nodup)
    (hsel : sel < imgs.length) :
    (cleanupPass (sel : Int) true imgs fs).attempts = imgs.length
    ∧ (cleanupPass (sel : Int) true imgs fs).deleted.length
        = ((imgs.map (fun i => i.preview_url)).filter
            (fun u => u ∈ fs)).length
    ∧ (cleanupPass (sel : Int) true imgs fs).retained = []
    ∧ (cleanupPass (sel : Int) false imgs fs).attempts = 1
    ∧ (cleanupPass (sel : Int) false imgs fs).retained
        = (imgs.eraseIdx sel).map (fun i => i.preview_url)
    ∧ (cleanupPass (sel : Int) false imgs fs).deleted
        = (if (imgs.get ⟨sel, hsel⟩).preview_url ∈ fs
           then [(imgs.get ⟨sel, hsel⟩).preview_url] else []) := by
  obtain ⟨ta, tb, tc⟩ := cleanupPass_all (sel : Int) imgs fs hloc hnd
  refine ⟨ta, by rw [tb], tc, ?_⟩
  -- decompose the list at the selected position
  have hdecomp : imgs
      = imgs.take sel ++ imgs.get ⟨sel, hsel⟩ :: imgs.drop (sel + 1) := by
    conv_lhs => rw [← List.take_append_drop sel imgs]
    congr 1
    exact List.drop_eq_get_cons hsel
  have hA : ∀ img ∈ imgs.take sel, ¬ img.index_num = (sel : Int) := by
    intro img hmg heq
    obtain ⟨i, hi, hig⟩ := List.mem_iff_getElem.mp hmg
    have hmin := hi
    rw [List.length_take] at hmin
    have hisel : i < sel := (lt_min_iff.mp hmin).1
    have hilen : i < imgs.length := (lt_min_iff.mp hmin).2
    rw [List.getElem_take] at hig
    have hidx : img.index_num = (i : Int) := by
      rw [← hig]
      simpa [List.get_eq_getElem] using hpos i hilen
    rw [hidx] at heq
    omega
  have hB : ∀ img ∈ imgs.drop (sel + 1), ¬ img.index_num = (sel : Int) := by
    intro img hmg heq
    obtain ⟨i, hi, hig⟩ := List.mem_iff_getElem.mp hmg
    have hilen : sel + 1 + i < imgs.length := by
      rw [List.length_drop] at hi; omega
    rw [List.getElem_drop] at hig
    have hidx : img.index_num = ((sel + 1 + i : Nat) : Int) := by
      rw [← hig]
      simpa [List.get_eq_getElem] using hpos (sel + 1 + i) hilen
    rw [hidx] at heq
    omega
  have hlocA : ∀ img ∈ imgs.take sel, isLocalPath img.preview_url = true :=
    fun img hmg => hloc img (List.mem_of_mem_take hmg)
  have hlocB : ∀ img ∈ imgs.drop (sel + 1),
      isLocalPath img.preview_url = true :=
    fun img hmg => hloc img (List.mem_of_mem_drop hmg)
  have hlocs : isLocalPath (imgs.get ⟨sel, hsel⟩).preview_url = true :=
    hloc _ (List.get_mem _ _ _)
  have hs : (imgs.get ⟨sel, hsel⟩).index_num = (sel : Int) := hpos sel hsel
  simp only [List.get_eq_getElem] at hlocs hs
  -- run the loop over the decomposition
  have hmid : ∀ fs' : List Str,
      cleanupPass (sel : Int) false
        (imgs.get ⟨sel, hsel⟩ :: imgs.drop (sel + 1)) fs'
        = { fs := if (imgs.get ⟨sel, hsel⟩).preview_url ∈ fs'
              then fs'.erase (imgs.get ⟨sel, hsel⟩).preview_url else fs',
            deleted := if (imgs.get ⟨sel, hsel⟩).preview_url ∈ fs'
              then [(imgs.get ⟨sel, hsel⟩).preview_url] else [],
            retained := (imgs.drop (sel + 1)).map (fun i => i.preview_url),
            attempts := 1 } := by
    intro fs'
    simp only [List.get_eq_getElem]
    by_cases hmem : imgs[sel].preview_url ∈ fs' <;>
      simp [cleanupPass, hlocs, hs, hmem,
        cleanupPass_no_hit (sel : Int) (imgs.drop (sel + 1)) _ hlocB hB]
  have hrun : cleanupPass (sel : Int) false imgs fs
      = { fs := if (imgs.get ⟨sel, hsel⟩).preview_url ∈ fs
            then fs.erase (imgs.get ⟨sel, hsel⟩).preview_url else fs,
          deleted := if (imgs.get ⟨sel, hsel⟩).preview_url ∈ fs
            then [(imgs.get ⟨sel, hsel⟩).preview_url] else [],
          retained := (imgs.take sel).map (fun i => i.preview_url)
            ++ (imgs.drop (sel + 1)).map (fun i => i.preview_url),
          attempts := 1 } := by
    conv_lhs => rw [hdecomp]
    rw [cleanupPass_append,
      cleanupPass_no_hit (sel : Int) (imgs.take sel) fs hlocA hA, hmid]
    simp
  refine ⟨by rw [hrun], ?_, by rw [hrun]⟩
  rw [hrun, List.eraseIdx_eq_take_drop_succ, List.map_append]

/-- Witness for C2 at a concrete two-image generation (canonical layout,
both files existing): cleanup-all attempts 2 and deletes 2, retains
nothing; no-cleanup attempts 1 and retains the unselected path. -/
theorem cleanupPass_selection_invariant_witness :
    (cleanupPass 1 true
      [{ generation_id := ['g'], index_num := 0,
         preview_url := (r"/p/0.png").toList, width := none, height := none,
         seed := none },
       { generation_id := ['g'], index_num := 1,
         preview_url := (r"/p/1.png").toList, width := none, height := none,
         seed := none }]
      [(r"/p/0.png").toList, (r"/p/1.png").toList]).attempts = 2
    ∧ (cleanupPass 1 false
      [{ generation_id := ['g'], index_num := 0,
         preview_url := (r"/p/0.png").toList, width := none, height := none,
         seed := none },
       { generation_id := ['g'], index_num := 1,
         preview_url := (r"/p/1.png").toList, width := none, height := none,
         seed := none }]
      [(r"/p/0.png").toList, (r"/p/1.png").toList]).retained
        = [(r"/p/0.png").toList] := by
  have h := cleanupPass_selection_invariant
    [{ generation_id := ['g'], index_num := 0,
       preview_url := (r"/p/0.png").toList, width := none, height := none,
       seed := none },
     { generation_id := ['g'], index_num := 1,
       preview_url := (r"/p/1.png").toList, width := none, height := none,
       seed := none }]
    [(r"/p/0.png").toList, (r"/p/1.png").toList] 1
    (by intro i h
        match i, h with
        | 0, _ => rfl
        | 1, _ => rfl)
    (by decide) (by decide) (by decide)
  exact ⟨h.1, h.2.2.2.2.1⟩

/-! ### Claim C3 -/

/-- C3: a successful `generateImages` call carries a budget warning iff the
month-to-date total (including the just-inserted request) is at least
`monthly_limit × alert_threshold`; every warning contains the percentage of
the limit rendered with one decimal digit followed by `%`; and at
monthly_limit 25, alert_threshold 0.8, a month-to-date total of 22 yields a
warning containing `88.0%` while a total of 5 yields no warning at all. -/
theorem generate_budget_warning_spec :
    (∀ (prior : List GenRow) (newRow : GenRow) (monthStart : Str)
        (limit threshold : ℚ),
      (generateBudgetWarning prior newRow monthStart limit threshold).isSome
        ↔ limit * threshold
            ≤ (getCosts (prior ++ [newRow]) (some monthStart)).total)
    ∧ (∀ total limit : ℚ,
      (toFixed1 (total / limit * 100) ++ ['%']) <:+: budgetMsg total limit)
    ∧ generateBudgetWarning [] sampleRow22 monthStart2025 25 (4/5)
        = some (budgetMsg 22 25)
    ∧ ((r"88.0%").toList <:+: budgetMsg 22 25)
    ∧ generateBudgetWarning [] sampleRow5 monthStart2025 25 (4/5) = none := by
  refine ⟨?_, ?_, ?_, ?_, ?_⟩
  · intro prior newRow monthStart limit threshold
    unfold generateBudgetWarning budgetWarning
    by_cases h : limit * threshold
        ≤ (getCosts (prior ++ [newRow]) (some monthStart)).total <;>
      simp [h]
  · intro total limit
    have hsplit : pctSuffix
        = '%' :: (r" of monthly limit used ($").toList := by decide
    refine ⟨(r"Budget alert: ").toList,
      (r" of monthly limit used ($").toList ++ toFixed2 total
        ++ '/' :: '$' :: ratToStr limit ++ [')'], ?_⟩
    rw [budgetMsg, hsplit]
    simp
  · have hrows : rowsSince ([] ++ [sampleRow22]) (some monthStart2025)
        = [sampleRow22] := by decide
    have htot : (getCosts ([] ++ [sampleRow22]) (some monthStart2025)).total
        = 22 := by
      simp only [getCosts]
      rw [hrows]
      simp [sampleRow22, sampleGenRow]
    rw [generateBudgetWarning, budgetWarning, htot,
      if_pos (by norm_num : (25 : ℚ) * (4/5) ≤ 22)]
  · have hq : (22 : ℚ) / 25 * 100 = 88 := by norm_num
    have hfl : ⌊(88 : ℚ) * 10 + 1/2⌋ = 880 := by
      rw [Int.floor_eq_iff]
      norm_num
    have hfix : toFixed1 ((22 : ℚ) / 25 * 100) = ['8', '8', '.', '0'] := by
      rw [hq, toFixed1, if_neg (by norm_num : ¬ (88 : ℚ) < 0), hfl]
      decide
    have hsplit : pctSuffix
        = '%' :: (r" of monthly limit used ($").toList := by decide
    refine ⟨(r"Budget alert: ").toList,
      (r" of monthly limit used ($").toList ++ toFixed2 22
        ++ '/' :: '$' :: ratToStr 25 ++ [')'], ?_⟩
    rw [budgetMsg, hfix, hsplit,
      show (r"88.0%").toList = ['8', '8', '.', '0', '%'] from by decide]
    simp
  · have hrows : rowsSince ([] ++ [sampleRow5]) (some monthStart2025)
        = [sampleRow5] := by decide
    have htot : (getCosts ([] ++ [sampleRow5]) (some monthStart2025)).total
        = 5 := by
      simp only [getCosts]
      rw [hrows]
      simp [sampleRow5, sampleGenRow]
    rw [generateBudgetWarning, budgetWarning, htot,
      if_neg (by norm_num : ¬ (25 : ℚ) * (4/5) ≤ 5)]

/-! ### Claim C6 -/

/-- C6 counterexample: a provider image whose payload is a bare remote URL
is skipped entirely by the materialization loop — it gets no Ledger child
row and no entry in the returned per-image list, instead of being surfaced
with its URL as the preview reference. -/
theorem generate_remote_url_counterexample :
    genImageRows (r"/previews/gen-1").toList
        [{ index := 0, url := (r"https://example.com/a.png").toList,
           width := 512, height := 512, seed := none }] = []
    ∧ genPayloadImages (r"/previews/gen-1").toList
        [{ index := 0, url := (r"https://example.com/a.png").toList,
           width := 512, height := 512, seed := none }] = []
    ∧ ¬ (∃ row ∈ genImageRows (r"/previews/gen-1").toList
          [{ index := 0, url := (r"https://example.com/a.png").toList,
             width := 512, height := 512, seed := none }],
          row.preview_url = (r"https://example.com/a.png").toList) := by
  decide

/-- C6 amended: an image whose payload is not a data URL is skipped
entirely (logged and excluded): the Ledger child rows and the returned
per-image list are built from exactly the data-URL-parsable images, so
their lengths equal the count of parsable images. -/
theorem generate_images_skip_non_data_urls :
    (∀ (dir : Str) (imgs : List ProvImage),
      processImages dir imgs
        = (imgs.filter (fun i => (dataUrlToBuffer i.url).isSome)).map
            (fun i => savedImageOf dir i
              (match dataUrlToBuffer i.url with
               | some (mime, _) => mime
               | none => [])))
    ∧ (∀ (dir : Str) (imgs : List ProvImage),
      (genImageRows dir imgs).length
        = imgs.countP (fun i => (dataUrlToBuffer i.url).isSome))
    ∧ (∀ (dir : Str) (imgs : List ProvImage),
      (genPayloadImages dir imgs).length
        = imgs.countP (fun i => (dataUrlToBuffer i.url).isSome)) := by
  have hmain : ∀ (dir : Str) (imgs : List ProvImage),
      processImages dir imgs
        = (imgs.filter (fun i => (dataUrlToBuffer i.url).isSome)).map
            (fun i => savedImageOf dir i
              (match dataUrlToBuffer i.url with
               | some (mime, _) => mime
               | none => [])) := by
    intro dir imgs
    induction imgs with
    | nil => rfl
    | cons i rest ih =>
      unfold processImages at ih ⊢
      cases h : dataUrlToBuffer i.url with
      | none => simp [List.filterMap_cons, List.filter_cons, h, ih]
      | some mp =>
        cases mp with
        | mk mime payload =>
          simp [List.filterMap_cons, List.filter_cons, h, ih]
  refine ⟨hmain, ?_, ?_⟩
  · intro dir imgs
    simp [genImageRows, hmain, List.countP_eq_length_filter]
  · intro dir imgs
    simp [genPayloadImages, hmain, List.countP_eq_length_filter]

/-! ### Claim C5 -/

/-- A replacement string without a dollar sign passes through
`$`-substitution verbatim. -/
lemma dollarGet_no_dollar (matched before after : Str) :
    ∀ s : Str, (∀ c ∈ s, ¬ c.toNat = 36) →
      dollarGet matched before after s = s := by
  intro s
  induction s with
  | nil => intro _; rfl
  | cons c rest ih =>
    intro h
    have hc : ¬ c.toNat = 36 := h c (by simp)
    have hstep : dollarGet matched before after (c :: rest)
        = c :: dollarGet matched before after rest := by
      conv_lhs => unfold dollarGet
      rw [if_neg hc]
    rw [hstep, ih (fun x hx => h x (by simp [hx]))]

/-- C5 counterexample: at 2025-01-09, a template with two `{year}` tokens
expands only the first one — JS `String.replace` with a string pattern
replaces a single occurrence — where the claim demands both replaced. -/
theorem generateStoragePath_counterexample :
    generateStoragePath 2025 1 9 (r"{year}/{year}").toList ['x']
        = (r"2025/{year}").toList
    ∧ ¬ (generateStoragePath 2025 1 9 (r"{year}/{year}").toList ['x']
        = (r"2025/2025").toList) := by
  decide

/-- C5 amended: path expansion replaces the FIRST occurrence of each token
(in the order `{year}`, `{month}`, `{day}`, `{filename}`) with the 4-digit
year, zero-padded month and day, and the filename (verbatim provided it
contains no `$` substitution sequences); later occurrences and templates
without tokens are left untouched.  At 2025-01-09 the spec's example
template yields `2025/01/09/<filename>`. -/
theorem generateStoragePath_spec :
    (∀ (y m d : Nat) (t f : Str),
      findSub t yearTok = none → findSub t monthTok = none →
      findSub t dayTok = none → findSub t fileTok = none →
      generateStoragePath y m d t f = t)
    ∧ (∀ f : Str, (∀ c ∈ f, ¬ c.toNat = 36) →
      generateStoragePath 2025 1 9
          (r"{year}/{month}/{day}/{filename}").toList f
        = (r"2025/01/09/").toList ++ f) := by
  constructor
  · intro y m d t f h1 h2 h3 h4
    simp only [generateStoragePath, jsReplaceFirst, h1, h2, h3, h4]
  · intro f hf
    have h123 : jsReplaceFirst
        (jsReplaceFirst
          (jsReplaceFirst (r"{year}/{month}/{day}/{filename}").toList
            yearTok (natDigitsStr 2025))
          monthTok (padStart2 (natDigitsStr 1)))
        dayTok (padStart2 (natDigitsStr 9))
        = (r"2025/01/09/{filename}").toList := by decide
    have hfind : findSub (r"2025/01/09/{filename}").toList fileTok
        = some 11 := by decide
    have ht : ((r"2025/01/09/{filename}").toList).take 11
        = (r"2025/01/09/").toList := by decide
    have hd : ((r"2025/01/09/{filename}").toList).drop (11 + fileTok.length)
        = [] := by decide
    simp only [generateStoragePath]
    rw [h123]
    simp only [jsReplaceFirst, hfind]
    rw [ht, hd, dollarGet_no_dollar _ _ _ f hf]
    simp

/-- Witness for C5's amended claim: the spec's own example, filename
`x.png`. -/
theorem generateStoragePath_spec_witness :
    generateStoragePath 2025 1 9
        (r"{year}/{month}/{day}/{filename}").toList (r"x.png").toList
      = (r"2025/01/09/x.png").toList := by
  rw [generateStoragePath_spec.2 (r"x.png").toList (by decide)]
  decide

/-! ### Claim C8 -/

/-- C8: a cleanup invocation with `dry_run` set leaves the preview area
untouched, and (when the preview directory exists) reports the first at
most 20 deletion candidates plus the count of any remainder beyond 20. -/
theorem cleanup_dry_run_frame (area : PreviewArea) (previewDir : Str)
    (nowMs cutoffTime : Nat) :
    (cleanupPreviews area previewDir (some true) nowMs cutoffTime).1 = area
    ∧ (reportPreviews
        (cleanupPreviews area previewDir (some true) nowMs
          cutoffTime).2).length ≤ 20
    ∧ (area.dirExists = true →
        reportPreviews
          (cleanupPreviews area previewDir (some true) nowMs cutoffTime).2
          = (candidatesOf previewDir area.entries cutoffTime nowMs).take 20
        ∧ reportMore
            (cleanupPreviews area previewDir (some true) nowMs cutoffTime).2
          = (if 20 < (candidatesOf previewDir area.entries cutoffTime
                nowMs).length
             then some ((candidatesOf previewDir area.entries cutoffTime
                nowMs).length - 20)
             else none)) := by
  unfold cleanupPreviews
  by_cases hex : area.dirExists
  · by_cases hemp :
        (candidatesOf previewDir area.entries cutoffTime nowMs).isEmpty
    · have hnil : candidatesOf previewDir area.entries cutoffTime nowMs
          = [] := List.isEmpty_iff.mp hemp
      simp [hex, hemp, hnil, reportPreviews, reportMore]
    · have hlen : ((candidatesOf previewDir area.entries cutoffTime
          nowMs).take 20).length ≤ 20 := by
        rw [List.length_take]; exact min_le_left _ _
      simp [hex, hemp, reportPreviews, reportMore, hlen]
  · simp [hex, reportPreviews, reportMore]

/-- Witness for C8 at a concrete preview area with one stale directory. -/
theorem cleanup_dry_run_frame_witness :
    reportPreviews
      (cleanupPreviews
        { dirExists := true,
          entries := [⟨(r"gen-a").toList, true, 0, []⟩] }
        (r"/p").toList (some true) 20 10).2
      = (candidatesOf (r"/p").toList [⟨(r"gen-a").toList, true, 0, []⟩]
          10 20).take 20 :=
  ((cleanup_dry_run_frame _ _ _ _).2.2 rfl).1

/-! ### Claim C4 -/

/-- Two adjacent characters are not both spaces. -/
def noSpacePair (a b : Char) : Prop := ¬ (a = ' ' ∧ b = ' ')

/-- Collapsing only drops characters. -/
lemma mem_of_mem_collapseSpaces :
    ∀ (l : Str) (c : Char), c ∈ collapseSpaces l → c ∈ l := by
  intro l
  induction l with
  | nil => intro c hc; simpa [collapseSpaces] using hc
  | cons a rest ih =>
    cases rest with
    | nil => intro c hc; simpa [collapseSpaces] using hc
    | cons b rest2 =>
      intro c hc
      unfold collapseSpaces at hc
      by_cases hab : a = ' ' ∧ b = ' '
      · rw [if_pos hab] at hc
        exact List.mem_cons_of_mem a (ih c hc)
      · rw [if_neg hab] at hc
        rcases List.mem_cons.mp hc with h | h
        · exact h ▸ List.mem_cons_self a _
        · exact List.mem_cons_of_mem a (ih c h)

/-- Collapsing preserves the head. -/
lemma head_collapseSpaces :
    ∀ l : Str, (collapseSpaces l).head? = l.head? := by
  intro l
  induction l with
  | nil => rfl
  | cons a rest ih =>
    cases rest with
    | nil => rfl
    | cons b rest2 =>
      unfold collapseSpaces
      by_cases hab : a = ' ' ∧ b = ' '
      · rw [if_pos hab, ih]
        simp [hab.1, hab.2]
      · rw [if_neg hab]
        rfl

/-- The collapsed list has no two adjacent spaces. -/
lemma chain_collapseSpaces :
    ∀ l : Str, List.Chain' noSpacePair (collapseSpaces l) := by
  intro l
  induction l with
  | nil => simp [collapseSpaces]
  | cons a rest ih =>
    cases rest with
    | nil => simp [collapseSpaces, List.chain'_singleton]
    | cons b rest2 =>
      unfold collapseSpaces
      by_cases hab : a = ' ' ∧ b = ' '
      · rw [if_pos hab]; exact ih
      · rw [if_neg hab, List.chain'_cons']
        refine ⟨?_, ih⟩
        intro y hy
        rw [head_collapseSpaces] at hy
        have hyb : y = b := by simpa using hy.symm
        exact fun hcon => hab ⟨hcon.1, hyb ▸ hcon.2⟩

/-- Collapsing is the identity on lists with no two adjacent spaces. -/
lemma collapseSpaces_eq_self :
    ∀ l : Str, List.Chain' noSpacePair l → collapseSpaces l = l := by
  intro l
  induction l with
  | nil => intro _; rfl
  | cons a rest ih =>
    cases rest with
    | nil => intro _; rfl
    | cons b rest2 =>
      intro h
      have hab : noSpacePair a b := (List.chain'_cons.mp h).1
      unfold collapseSpaces
      rw [if_neg hab, ih (List.chain'_cons.mp h).2]

/-- The head of a `dropWhile` result fails the predicate. -/
lemma head_dropWhile_false (p : Char → Bool) :
    ∀ (l : Str) (c : Char), (l.dropWhile p).head? = some c → p c = false := by
  intro l
  induction l with
  | nil => intro c hc; exact absurd hc (by simp)
  | cons a rest ih =>
    intro c hc
    by_cases ha : p a
    · rw [List.dropWhile_cons_of_pos ha] at hc
      exact ih c hc
    · rw [List.dropWhile_cons_of_neg ha] at hc
      have : a = c := by simpa using hc
      rw [← this]
      exact Bool.of_not_eq_true ha

/-- A nonempty prefix shares its head with the longer list. -/
lemma head_of_isPrefixOf {l1 l2 : Str} {c : Char} (h : l1 <+: l2)
    (hc : l1.head? = some c) : l2.head? = some c := by
  rcases h with ⟨t, rfl⟩
  cases l1 with
  | nil => exact absurd hc (by simp)
  | cons a r => simpa using hc

/-- Right trim is a prefix. -/
lemma rtrimSpaces_isPrefixOf (l : Str) : rtrimSpaces l <+: l := by
  have h : l.reverse.dropWhile (fun c => c = ' ') <:+ l.reverse :=
    List.dropWhile_suffix _
  have h2 := List.reverse_prefix.mpr h
  rwa [List.reverse_reverse] at h2

/-- A list of singletons flattens back. -/
lemma join_map_singleton : ∀ l : Str, (l.map (fun c => [c])).join = l := by
  intro l
  induction l with
  | nil => rfl
  | cons a rest ih => simp [ih]

/-- C4 counterexample: with maxLength 2, sanitizing `"a b"` truncates to
`"a "` (trim happens before the final slice), and sanitizing that again
trims the now-trailing space to `"a"`: the sanitizer is not idempotent. -/
theorem sanitize_not_idempotent :
    sanitizeForHeader ['a', ' ', 'b'] 2 = ['a', ' ']
    ∧ sanitizeForHeader (sanitizeForHeader ['a', ' ', 'b'] 2) 2 = ['a']
    ∧ ¬ (sanitizeForHeader (sanitizeForHeader ['a', ' ', 'b'] 2) 2
        = sanitizeForHeader ['a', ' ', 'b'] 2) := by
  decide

/-- C4 amended: re-sanitizing a sanitized string removes exactly the
trailing space that truncation may have produced (`trim` runs before
`slice`): for every s and maxLength n,
`sanitize (sanitize s n) n = rtrim (sanitize s n)`; in particular
idempotence holds precisely when `sanitize s n` does not end in a space. -/
theorem sanitize_resanitize (s : Str) (n : Nat) :
    sanitizeForHeader (sanitizeForHeader s n) n
      = rtrimSpaces (sanitizeForHeader s n) := by
  have hA : ∀ c ∈ ((s.map normWsChar).map unicodeSubChar).join.filter
      isPrintableAscii, isPrintableAscii c = true :=
    fun c hc => List.of_mem_filter hc
  -- the sanitized output r and its invariants
  have hBsub : ∀ c ∈ collapseSpaces (((s.map normWsChar).map
      unicodeSubChar).join.filter isPrintableAscii),
      isPrintableAscii c = true :=
    fun c hc => hA c (mem_of_mem_collapseSpaces _ c hc)
  have hCsub : ∀ c ∈ trimSpaces (collapseSpaces (((s.map normWsChar).map
      unicodeSubChar).join.filter isPrintableAscii)),
      isPrintableAscii c = true := by
    intro c hc
    apply hBsub
    have h1 : c ∈ ltrimSpaces (collapseSpaces (((s.map normWsChar).map
        unicodeSubChar).join.filter isPrintableAscii)) :=
      (rtrimSpaces_isPrefixOf _).subset hc
    exact (List.dropWhile_suffix _).subset h1
  have hprint : ∀ c ∈ sanitizeForHeader s n, isPrintableAscii c = true := by
    intro c hc
    exact hCsub c (List.take_subset _ _ hc)
  have hchainB : List.Chain' noSpacePair (collapseSpaces (((s.map
      normWsChar).map unicodeSubChar).join.filter isPrintableAscii)) :=
    chain_collapseSpaces _
  have hchainC : List.Chain' noSpacePair (trimSpaces (collapseSpaces
      (((s.map normWsChar).map unicodeSubChar).join.filter
        isPrintableAscii))) := by
    have h1 := hchainB.suffix (List.dropWhile_suffix (fun c => c = ' '))
    exact h1.prefix (rtrimSpaces_isPrefixOf _)
  have hchain : List.Chain' noSpacePair (sanitizeForHeader s n) :=
    hchainC.prefix (List.take_prefix _ _)
  have hhead : ∀ c : Char, (sanitizeForHeader s n).head? = some c →
      ¬ c = ' ' := by
    intro c hc
    have h1 : (trimSpaces (collapseSpaces (((s.map normWsChar).map
        unicodeSubChar).join.filter isPrintableAscii))).head? = some c := by
      have hpre := List.take_prefix n (trimSpaces (collapseSpaces (((s.map
        normWsChar).map unicodeSubChar).join.filter isPrintableAscii)))
      exact head_of_isPrefixOf hpre hc
    have h2 : (ltrimSpaces (collapseSpaces (((s.map normWsChar).map
        unicodeSubChar).join.filter isPrintableAscii))).head? = some c :=
      head_of_isPrefixOf (rtrimSpaces_isPrefixOf _) h1
    have h3 := head_dropWhile_false (fun c => c = ' ') _ c h2
    simpa using h3
  have hlen : (sanitizeForHeader s n).length ≤ n := by
    rw [sanitizeForHeader, List.length_take]
    exact min_le_left _ _
  -- the second pass is the identity up to the trailing trim
  have step1 : (sanitizeForHeader s n).map normWsChar
      = sanitizeForHeader s n := by
    have h := List.map_congr_left (l := sanitizeForHeader s n)
      (f := normWsChar) (g := fun c => c) ?_
    · rw [h, List.map_id']
    · intro c hc
      have hp := hprint c hc
      rw [isPrintableAscii] at hp
      have hp2 := of_decide_eq_true hp
      unfold normWsChar
      rw [if_neg]
      omega
  have step2 : ((sanitizeForHeader s n).map unicodeSubChar).join
      = sanitizeForHeader s n := by
    have h := List.map_congr_left (l := sanitizeForHeader s n)
      (f := unicodeSubChar) (g := fun c => [c]) ?_
    · rw [h, join_map_singleton]
    · intro c hc
      have hp := hprint c hc
      rw [isPrintableAscii] at hp
      have hp2 := of_decide_eq_true hp
      unfold unicodeSubChar
      repeat rw [if_neg (by omega)]
  have step3 : (sanitizeForHeader s n).filter isPrintableAscii
      = sanitizeForHeader s n := List.filter_eq_self.mpr hprint
  have step4 : collapseSpaces (sanitizeForHeader s n)
      = sanitizeForHeader s n := collapseSpaces_eq_self _ hchain
  have step5 : ltrimSpaces (sanitizeForHeader s n)
      = sanitizeForHeader s n := by
    cases hr : sanitizeForHeader s n with
    | nil => rfl
    | cons c rest =>
      have hc : ¬ c = ' ' := hhead c (by rw [hr]; rfl)
      unfold ltrimSpaces
      rw [List.dropWhile_cons_of_neg (by simpa using hc)]
  have hfinal : (rtrimSpaces (sanitizeForHeader s n)).take n
      = rtrimSpaces (sanitizeForHeader s n) := by
    apply List.take_of_length_le
    exact le_trans ((rtrimSpaces_isPrefixOf _).length_le) hlen
  calc sanitizeForHeader (sanitizeForHeader s n) n
      = (trimSpaces (collapseSpaces ((((sanitizeForHeader s n).map
          normWsChar).map unicodeSubChar).join.filter
            isPrintableAscii))).take n := rfl
    _ = (trimSpaces (sanitizeForHeader s n)).take n := by
        rw [step1, step2, step3, step4]
    _ = (rtrimSpaces (sanitizeForHeader s n)).take n := by
        unfold trimSpaces
        rw [step5]
    _ = rtrimSpaces (sanitizeForHeader s n) := hfinal

end ImageGen
